/-
Verification of the AudioSlicer segmentation core (src/AudioSeg.py) against
its design specification.

Modelling conventions (shallow embedding of the Python source):
  * numeric amplitudes and time values are rationals (`ℚ`), exact where the
    source uses Python/numpy floats;
  * Python `int(x)` (truncation toward zero) is `pyInt`;
  * Python list/array slicing `l[a:b]` (step 1, with negative-index
    resolution and clamping) is `pySlice`;
  * fallible Python code (raised exceptions) returns `Except PyErr`;
  * `datetime(1,1,1) + timedelta(seconds=s)` is modelled through the
    microsecond total of the timedelta (`timedeltaUs`, with Python's
    round-half-to-even float-seconds conversion); the calendar overflow at
    year 9999 is out of modelled range.
-/
import Mathlib

set_option maxRecDepth 100000

namespace AudioSeg

/-- Python exception values raised by the modelled code. -/
inductive PyErr where
  | attributeError (msg : String) : PyErr
  | valueError (msg : String) : PyErr
deriving DecidableEq, Repr

/-- A Python numeric argument: either an `int` or a non-`int` number
(`float`).  `windows` type-checks its size arguments with
`type(x) is int`. -/
inductive PyNum where
  | int (z : ℤ) : PyNum
  | float (q : ℚ) : PyNum
deriving DecidableEq, Repr

/-- Python `int(q)`: truncation toward zero.  (`Rat.floor` is the
executable floor of `ℚ`; see `pyInt_eq_floor`.) -/
def pyInt (q : ℚ) : ℤ :=
  if q < 0 then -((-q).floor) else q.floor

/-- Python slice `l[start:stop]` with step 1: negative indices count from the
end, then both bounds are clamped to `[0, len l]`. -/
def pySlice (l : List α) (start stop : ℤ) : List α :=
  let n : ℤ := l.length
  let s := if start < 0 then max 0 (n + start) else min start n
  let e := if stop < 0 then max 0 (n + stop) else min stop n
  (l.take e.toNat).drop s.toNat

/-- The start indices produced by Python `range(0, n, step)` for `step > 0`. -/
def pyRangeStarts (n step : ℕ) : List ℕ :=
  (List.range ((n + step - 1) / step)).map (· * step)

/-- The loop body of `windows` (source lines 83–87) for integer size
arguments and a positive step: iterate `i_start` over `range(0, len, step)`,
stop (`break`) at the first window whose end index reaches or exceeds the
signal length, and yield the slice `signal[i_start : i_start + window_size]`.
On an increasing start sequence the `break` is a `takeWhile`. -/
def windowsList (signal : List ℚ) (window_size : ℤ) (step_size : ℕ) : List (List ℚ) :=
  ((pyRangeStarts signal.length step_size).takeWhile
      (fun (i_start : ℕ) => (i_start : ℤ) + window_size < (signal.length : ℤ))).map
    (fun (i_start : ℕ) => pySlice signal (i_start : ℤ) ((i_start : ℤ) + window_size))

/-- The function `windows(signal, window_size, step_size)` from the source (lines 78–87):
`AttributeError` when either size argument is not an `int` (no positivity
validation), `ValueError` from `range` when the step is zero, an empty yield
for a negative step, otherwise the windows of `windowsList`. -/
def windows (signal : List ℚ) (window_size step_size : PyNum) :
    Except PyErr (List (List ℚ)) :=
  match window_size with
  | .float _ => .error (.attributeError "Window size must be an integer.")
  | .int ws =>
    match step_size with
    | .float _ => .error (.attributeError "Step size must be an integer.")
    | .int ss =>
      if ss = 0 then .error (.valueError "range() arg 3 must not be zero")
      else if ss < 0 then .ok []
      else .ok (windowsList signal ws ss.toNat)

/-- The function `energy(samples)` from the source (lines 90–91): sum of squared samples
divided by the sample count. -/
def energy (samples : List ℚ) : ℚ :=
  (samples.map (fun x => x ^ 2)).sum / (samples.length : ℚ)

/-- Loop of `rising_edges` (lines 94–101): `previous_value` starts at 0
(falsy), the running index at `index`; an index is yielded when the current
flag is truthy and the previous one was not. -/
def risingEdgesAux (previous_value : Bool) (index : ℕ) : List Bool → List ℕ
  | [] => []
  | x :: xs =>
    if x && !previous_value then index :: risingEdgesAux x (index + 1) xs
    else risingEdgesAux x (index + 1) xs

/-- The function `rising_edges(binary_signal)` from the source (lines 94–101). -/
def rising_edges (binary_signal : List Bool) : List ℕ :=
  risingEdgesAux false 0 binary_signal

/-- Python's `round` to an integer: half-to-even. -/
def pyRound (q : ℚ) : ℤ :=
  let n := Int.floor q
  let r := q - (n : ℚ)
  if r < 1/2 then n
  else if 1/2 < r then n + 1
  else if n % 2 = 0 then n else n + 1

/-- Total microseconds of `timedelta(seconds=s)`: CPython converts a float
seconds value to a whole number of microseconds rounding half-to-even. -/
def timedeltaUs (s : ℚ) : ℤ := pyRound (s * 1000000)

/-- Python `str(n).zfill(2)` for the integers produced here. -/
def zfill2 (n : ℤ) : String :=
  let s := toString n
  if s.length < 2 then "0" ++ s else s

/-- The value returned by `GetTime`: the Python function returns either the
`int` `00` or a formatted string. -/
inductive TimeResult where
  | num (z : ℤ) : TimeResult
  | str (s : String) : TimeResult
deriving DecidableEq, Repr

/-- Python `str(...)` applied to a `GetTime` result. -/
def pyStr : TimeResult → String
  | .num z => toString z
  | .str s => s

/-- The function `GetTime(video_seconds)` from the source (lines 54–66): negative inputs
return the integer `00`; otherwise `d = datetime(1,1,1) +
timedelta(seconds=s)` and the result is
`str(d.hour).zfill(2) + ':' + str(d.minute).zfill(2) + ':' +
str(d.second).zfill(2) + '.001'` — the millisecond field is the literal
`'.001'`.  `d.hour`/`d.minute`/`d.second` are the clock fields of the total
elapsed time. -/
def GetTime (video_seconds : ℚ) : TimeResult :=
  if video_seconds < 0 then .num 0
  else
    let totalSec : ℤ := timedeltaUs video_seconds / 1000000
    let hour := totalSec / 3600 % 24
    let minute := totalSec % 3600 / 60
    let second := totalSec % 60
    .str (zfill2 hour ++ ":" ++ zfill2 minute ++ ":" ++ zfill2 second ++ ".001")

/-! ## The `split_audio` pipeline (source lines 104–196)

`split_audio` re-assigns its three tuning parameters to fixed constants
(lines 115–119), reads the input file (external I/O: the decoded
`sample_rate`, `samples` and the dtype bound `max_amplitude` are parameters
of the model), derives window and step sizes, and runs the
window → energy → silence-flag → rising-edge chain.  The stages below are
named pieces of that one function body. -/

/-- Re-assigned `min_silence_length` (line 115): `0.6`. -/
def min_silence_length_fixed : ℚ := 6/10

/-- Re-assigned `silence_threshold` (line 117): `1e-4`. -/
def silence_threshold_fixed : ℚ := 1/10000

/-- Re-assigned `step_duration` (line 119): `0.03/10`. -/
def step_duration_fixed : ℚ := 3/1000

/-- Source line 150, `window_size = int(window_duration * sample_rate)`, with
`window_duration = min_silence_length` (line 122) after the re-assignment. -/
def windowSizeOf (sample_rate : ℕ) : ℤ :=
  pyInt (min_silence_length_fixed * (sample_rate : ℚ))

/-- Source line 151, `step_size = int(step_duration * sample_rate)`, after the
re-assignment. -/
def stepSizeOf (sample_rate : ℕ) : ℤ :=
  pyInt (step_duration_fixed * (sample_rate : ℚ))

/-- Source line 147, `max_energy = energy([max_amplitude])`. -/
def maxEnergyOf (max_amplitude : ℚ) : ℚ := energy [max_amplitude]

/-- The window sequence of the run (lines 153–157), for a positive step. -/
def windowsOf (sample_rate : ℕ) (samples : List ℚ) : List (List ℚ) :=
  windowsList samples (windowSizeOf sample_rate) (stepSizeOf sample_rate).toNat

/-- Source lines 159–164, `window_silence = (e > silence_threshold for e in
window_energy)`: the per-window boolean is "normalized energy **above** the
threshold", i.e. *is non-silent*, despite the generator's name. -/
def windowSilenceOf (sample_rate : ℕ) (max_amplitude : ℚ) (samples : List ℚ) :
    List Bool :=
  (windowsOf sample_rate samples).map
    (fun w => decide (energy w / maxEnergyOf max_amplitude > silence_threshold_fixed))

/-- Source line 170, `cut_samples = [int(t * sample_rate) for t in cut_times]` with
`cut_times = (r * step_duration for r in rising_edges(window_silence))`
(lines 166–170): the detected sample-domain Cut Points. -/
def detectedCuts (sample_rate : ℕ) (max_amplitude : ℚ) (samples : List ℚ) :
    List ℤ :=
  (rising_edges (windowSilenceOf sample_rate max_amplitude samples)).map
    (fun (r : ℕ) => pyInt (((r : ℚ) * step_duration_fixed) * (sample_rate : ℚ)))

/-- Source line 171, `cut_samples.append(-1)`. -/
def cutSamplesOf (sample_rate : ℕ) (max_amplitude : ℚ) (samples : List ℚ) :
    List ℤ :=
  detectedCuts sample_rate max_amplitude samples ++ [-1]

/-- Source lines 173–174, `cut_ranges = [(i, cut_samples[i], cut_samples[i+1]) for i in
range(len(cut_samples) - 1)]` (lines 173–174), abstracted over the cut
list. -/
def makeCutRanges (cut_samples : List ℤ) : List (ℕ × ℤ × ℤ) :=
  (List.range (cut_samples.length - 1)).map
    (fun i => (i, cut_samples.getD i 0, cut_samples.getD (i + 1) 0))

/-- The `cut_ranges` of a run. -/
def cutRangesOf (sample_rate : ℕ) (max_amplitude : ℚ) (samples : List ℚ) :
    List (ℕ × ℤ × ℤ) :=
  makeCutRanges (cutSamplesOf sample_rate max_amplitude samples)

/-- Python `"{:03d}".format(i)` for the segment ordinals used here. -/
def zfill3 (n : ℕ) : String :=
  let s := toString n
  if s.length < 3 then
    (if s.length < 2 then "00" else "0") ++ s
  else s

/-- The per-segment writes of the output loop (lines 180–191): for each cut
range `(i, start, stop)` the writer receives the file name
`"{output_filename_prefix}_{i:03d}.wav"` and the data `samples[start:stop]`. -/
def writtenFilesOf (outName : String) (sample_rate : ℕ) (max_amplitude : ℚ)
    (samples : List ℚ) : List (String × List ℚ) :=
  (cutRangesOf sample_rate max_amplitude samples).map
    (fun t => (outName ++ "_" ++ zfill3 t.1 ++ ".wav", pySlice samples t.2.1 t.2.2))

/-- The concatenation, in index order, of the sample slices written for all
segments of a run. -/
def writtenConcat (sample_rate : ℕ) (max_amplitude : ℚ) (samples : List ℚ) :
    List ℚ :=
  ((cutRangesOf sample_rate max_amplitude samples).map
    (fun t => pySlice samples t.2.1 t.2.2)).flatten

/-- Source lines 176–178, `video_sub = {str(i): [str(GetTime(cut_samples[i]/sample_rate)),
str(GetTime(cut_samples[i+1]/sample_rate))] for i in
range(len(cut_samples) - 1)}` (lines 176–178), as an ordered association
list. -/
def manifestOf (sample_rate : ℕ) (max_amplitude : ℚ) (samples : List ℚ) :
    List (String × String × String) :=
  let cs := cutSamplesOf sample_rate max_amplitude samples
  (List.range (cs.length - 1)).map
    (fun i => (toString i,
      pyStr (GetTime ((cs.getD i 0 : ℚ) / (sample_rate : ℚ))),
      pyStr (GetTime ((cs.getD (i + 1) 0 : ℚ) / (sample_rate : ℚ)))))

/-- Everything observable a `split_audio` run produces downstream of the
decoded input: the cut list, the cut ranges, the written files and the
manifest. -/
structure SplitResult where
  cutSamples : List ℤ
  cutRanges : List (ℕ × ℤ × ℤ)
  writtenFiles : List (String × List ℚ)
  manifest : List (String × String × String)
deriving DecidableEq, Repr

/-- The function `split_audio(input_file, output_file, min_silence_length,
silence_threshold, step_duration)` (lines 104–196), downstream of the
external `wavfile.read`: the decoded `sample_rate`, `samples` and the dtype
bound `max_amplitude` stand in for the input file, `outName` for the derived
`output_filename_prefix`.  Lines 115–119 re-assign the three tuning
parameters to fixed constants before any use, so the argument values are
dead on arrival; line 123's `None` check then sees the constant.  The
`windows` generator's failure modes (step size zero) surface as the
exception of the run. -/
def split_audio (min_silence_length silence_threshold step_duration : ℚ)
    (sample_rate : ℕ) (max_amplitude : ℚ) (outName : String)
    (samples : List ℚ) : Except PyErr SplitResult :=
  let min_silence_length := min_silence_length_fixed
  let silence_threshold := silence_threshold_fixed
  let step_duration := step_duration_fixed
  let window_duration := min_silence_length
  let window_size := pyInt (window_duration * (sample_rate : ℚ))
  let step_size := pyInt (step_duration * (sample_rate : ℚ))
  match windows samples (.int window_size) (.int step_size) with
  | .error e => .error e
  | .ok ws =>
    let window_silence := ws.map
      (fun w => decide (energy w / maxEnergyOf max_amplitude > silence_threshold))
    let cut_samples := (rising_edges window_silence).map
      (fun (r : ℕ) => pyInt (((r : ℚ) * step_duration) * (sample_rate : ℚ))) ++ [-1]
    .ok
      { cutSamples := cut_samples
        cutRanges := makeCutRanges cut_samples
        writtenFiles := (makeCutRanges cut_samples).map
          (fun t => (outName ++ "_" ++ zfill3 t.1 ++ ".wav",
            pySlice samples t.2.1 t.2.2))
        manifest := (List.range (cut_samples.length - 1)).map
          (fun i => (toString i,
            pyStr (GetTime ((cut_samples.getD i 0 : ℚ) / (sample_rate : ℚ))),
            pyStr (GetTime ((cut_samples.getD (i + 1) 0 : ℚ) / (sample_rate : ℚ))))) }

/-! ## Infrastructure and helper lemmas -/

instance exceptDecEq {ε α : Type _} [DecidableEq ε] [DecidableEq α] :
    DecidableEq (Except ε α)
  | .error e, .error f => decidable_of_iff (e = f) (by simp)
  | .ok a, .ok b => decidable_of_iff (a = b) (by simp)
  | .error _, .ok _ => isFalse (fun h => Except.noConfusion h)
  | .ok _, .error _ => isFalse (fun h => Except.noConfusion h)

/-- The executable `Rat.floor` agrees with the mathematical floor. -/
lemma ratFloor_eq_intFloor (q : ℚ) : q.floor = ⌊q⌋ :=
  (Rat.floor_def' q).trans Rat.floor_def.symm

/-- On non-negative inputs Python truncation is the floor. -/
lemma pyInt_eq_floor {q : ℚ} (h : 0 ≤ q) : pyInt q = ⌊q⌋ := by
  rw [pyInt, if_neg (not_lt.mpr h), ratFloor_eq_intFloor]

lemma pyInt_nonneg {q : ℚ} (h : 0 ≤ q) : 0 ≤ pyInt q := by
  rw [pyInt_eq_floor h]
  exact Int.floor_nonneg.mpr h

/-- A sample buffer concatenated by a run: a positive step size means the
modelled run takes the `.ok` branch of `windows`. -/
lemma windows_ok_of_pos (signal : List ℚ) (w : ℤ) {ss : ℤ} (h : 0 < ss) :
    windows signal (.int w) (.int ss) = .ok (windowsList signal w ss.toNat) := by
  rw [windows, if_neg h.ne', if_neg (not_lt.mpr h.le)]

lemma windows_ok_of_neg (signal : List ℚ) (w : ℤ) {ss : ℤ} (h : ss < 0) :
    windows signal (.int w) (.int ss) = .ok [] := by
  rw [windows, if_neg h.ne, if_pos h]

lemma windows_err_zero (signal : List ℚ) (w : ℤ) :
    windows signal (.int w) (.int 0) =
      .error (.valueError "range() arg 3 must not be zero") := by
  rw [windows, if_pos rfl]

lemma windows_err_float_window (signal : List ℚ) (q : ℚ) (ss : PyNum) :
    windows signal (.float q) ss =
      .error (.attributeError "Window size must be an integer.") := rfl

lemma windows_err_float_step (signal : List ℚ) (w : ℤ) (q : ℚ) :
    windows signal (.int w) (.float q) =
      .error (.attributeError "Step size must be an integer.") := rfl

/-- An input used in several concrete runs below: one full-scale 16-bit
sample followed by 200 zero samples, at a sample rate of 334 Hz (so the
fixed configuration gives `window_size = 200`, `step_size = 1` and the
single window `[0, 200)` is classified non-silent). -/
def exFirstLoud : List ℚ := (32767 : ℚ) :: List.replicate 200 0

/-! ## Claims -/

/-- Claim C2. For any fixed input and any two values of each of
`min_silence_length`, `silence_threshold` and `step_duration`, `split_audio`
produces identical cut points, segments, written files and manifest: lines
115–119 re-assign all three parameters to the fixed defaults `0.6`, `1e-4`
and `0.003` before any use, so the observable behaviour does not depend on
those arguments. -/
theorem split_audio_ignores_parameters
    (msl st sd msl' st' sd' : ℚ) (sample_rate : ℕ) (max_amplitude : ℚ)
    (outName : String) (samples : List ℚ) :
    split_audio msl st sd sample_rate max_amplitude outName samples =
      split_audio msl' st' sd' sample_rate max_amplitude outName samples := rfl

/-- Claim C9. `energy` of a constant sequence `[c, …, c]` of positive length
`L` equals `c ^ 2`: the sum of squares `L * c ^ 2` divided by the sample
count `L`. -/
theorem energy_replicate (c : ℚ) (L : ℕ) (hL : 0 < L) :
    energy (List.replicate L c) = c ^ 2 := by
  rw [energy, List.map_replicate, List.sum_replicate, List.length_replicate,
    nsmul_eq_mul]
  exact mul_div_cancel_left₀ _ (Nat.cast_ne_zero.mpr hL.ne')

/-- Witness for C9: a constant buffer of length 3 and value 5 has energy
`25`. -/
theorem energy_replicate_witness :
    0 < 3 ∧ energy (List.replicate 3 (5 : ℚ)) = 25 :=
  ⟨by norm_num, by rw [energy_replicate 5 3 (by norm_num)]; norm_num⟩

/-- Claim C3, counterexample. A run on `exFirstLoud` at 334 Hz detects
exactly one Cut Point and emits exactly one segment — not two, as "number
of Cut Points plus one" would require. -/
theorem segment_count_counterexample :
    ¬ (cutRangesOf 334 32767 exFirstLoud).length =
        (detectedCuts 334 32767 exFirstLoud).length + 1 := by decide!

/-- Claim C3, amended. The number of segments of a run equals the number of
detected Cut Points: the sentinel `-1` appended at line 171 makes
`len(cut_samples) = cuts + 1`, and line 173 builds `len(cut_samples) - 1`
ranges. -/
theorem segment_count_eq_cut_points
    (sample_rate : ℕ) (max_amplitude : ℚ) (samples : List ℚ) :
    (cutRangesOf sample_rate max_amplitude samples).length =
      (detectedCuts sample_rate max_amplitude samples).length := by
  simp [cutRangesOf, makeCutRanges, cutSamplesOf]

/-- Claim C6, counterexample. `windows` does not validate positivity: with
the negative integer window size `-1` (and step `1`) it raises nothing and
happily yields Python's `signal[i:i-1]` slices. -/
theorem windows_negative_size_counterexample :
    windows [1, 2, 3] (.int (-1)) (.int 1) = .ok [[1, 2], [], []] := by decide!

/-- Claim C6, amended. `windows` type-checks its size arguments
(`AttributeError` when either is not an `int`, window first) but performs no
positivity validation: a zero step size raises `ValueError` from `range` at
iteration time, a negative step size silently yields no windows, and any
integer window size with a positive integer step size raises nothing. -/
theorem windows_validation :
    (∀ (signal : List ℚ) (q : ℚ) (ss : PyNum),
      windows signal (.float q) ss =
        .error (.attributeError "Window size must be an integer.")) ∧
    (∀ (signal : List ℚ) (w : ℤ) (q : ℚ),
      windows signal (.int w) (.float q) =
        .error (.attributeError "Step size must be an integer.")) ∧
    (∀ (signal : List ℚ) (w : ℤ),
      windows signal (.int w) (.int 0) =
        .error (.valueError "range() arg 3 must not be zero")) ∧
    (∀ (signal : List ℚ) (w ss : ℤ), ss < 0 →
      windows signal (.int w) (.int ss) = .ok []) ∧
    (∀ (signal : List ℚ) (w ss : ℤ), 0 < ss →
      windows signal (.int w) (.int ss) = .ok (windowsList signal w ss.toNat)) :=
  ⟨windows_err_float_window, windows_err_float_step, windows_err_zero,
    fun signal w ss h => windows_ok_of_neg signal w h,
    fun signal w ss h => windows_ok_of_pos signal w h⟩

/-- Witness for C6 (amended): concrete negative and positive step sizes. -/
theorem windows_validation_witness :
    (-3 : ℤ) < 0 ∧ windows [1, 2] (.int 2) (.int (-3)) = .ok [] ∧
    (0 : ℤ) < 2 ∧ windows [1, 2, 3, 4, 5] (.int 2) (.int 2) =
      .ok (windowsList [1, 2, 3, 4, 5] 2 2) :=
  ⟨by norm_num, windows_validation.2.2.2.1 [1, 2] 2 (-3) (by norm_num),
    by norm_num, windows_validation.2.2.2.2 [1, 2, 3, 4, 5] 2 2 (by norm_num)⟩

/-- Claim C8. For every non-negative offset `GetTime` returns an
`HH:MM:SS.mmm`-shaped string: two-digit-zero-padded clock fields joined by
`:` with the (hardcoded) `.001` millisecond tail, the hour below 24 and
minute/second below 60; `GetTime(3661.0) = "01:01:01.001"`; for every
negative input it returns the numeric zero sentinel, in particular at
`-1.0`. -/
theorem GetTime_format :
    (∀ s : ℚ, 0 ≤ s → ∃ hr mi se : ℤ,
      0 ≤ hr ∧ hr < 24 ∧ 0 ≤ mi ∧ mi < 60 ∧ 0 ≤ se ∧ se < 60 ∧
      GetTime s =
        .str (zfill2 hr ++ ":" ++ zfill2 mi ++ ":" ++ zfill2 se ++ ".001")) ∧
    GetTime 3661 = .str "01:01:01.001" ∧
    (∀ s : ℚ, s < 0 → GetTime s = .num 0) ∧ GetTime (-1) = .num 0 := by
  refine ⟨fun s hs => ?_, by decide!, fun s hs => ?_, by decide!⟩
  · simp only [GetTime, if_neg (not_lt.mpr hs)]
    exact ⟨timedeltaUs s / 1000000 / 3600 % 24,
      timedeltaUs s / 1000000 % 3600 / 60, timedeltaUs s / 1000000 % 60,
      by omega, by omega, by omega, by omega, by omega, by omega, rfl⟩
  · simp only [GetTime, if_pos hs]

/-- Witness for C8: the non-negative and negative branches applied at the
concrete offsets `2` and `-3`. -/
theorem GetTime_format_witness :
    ((0 : ℚ) ≤ 2 ∧ ∃ hr mi se : ℤ,
      0 ≤ hr ∧ hr < 24 ∧ 0 ≤ mi ∧ mi < 60 ∧ 0 ≤ se ∧ se < 60 ∧
      GetTime 2 =
        .str (zfill2 hr ++ ":" ++ zfill2 mi ++ ":" ++ zfill2 se ++ ".001")) ∧
    ((-3 : ℚ) < 0 ∧ GetTime (-3) = .num 0) :=
  ⟨⟨by norm_num, GetTime_format.1 2 (by norm_num)⟩,
    ⟨by norm_num, GetTime_format.2.2.1 (-3) (by norm_num)⟩⟩

/-- Claim C10. For every non-negative input the string returned by `GetTime`
ends in the literal `".001"`: the millisecond field is hardcoded (line 64),
never derived from the fractional part; in particular `GetTime(0.5)` is
`"00:00:00.001"`, not `"00:00:00.500"`. -/
theorem GetTime_milliseconds_hardcoded :
    (∀ s : ℚ, 0 ≤ s → ∃ t : String, GetTime s = .str (t ++ ".001")) ∧
    GetTime (1/2) = .str "00:00:00.001" := by
  refine ⟨fun s hs => ?_, by decide!⟩
  simp only [GetTime, if_neg (not_lt.mpr hs)]
  exact ⟨_, rfl⟩

/-- Witness for C10 at the concrete offset `9/4`. -/
theorem GetTime_milliseconds_hardcoded_witness :
    (0 : ℚ) ≤ 9/4 ∧ ∃ t : String, GetTime (9/4) = .str (t ++ ".001") :=
  ⟨by norm_num, GetTime_milliseconds_hardcoded.1 (9/4) (by norm_num)⟩

/-- Membership in the `rising_edges` loop, tracked with the running
previous flag and start index. -/
lemma mem_risingEdgesAux (l : List Bool) :
    ∀ (prev : Bool) (start k : ℕ),
      k ∈ risingEdgesAux prev start l ↔
        ∃ j, j < l.length ∧ k = start + j ∧ l.getD j false = true ∧
          (if j = 0 then prev = false else l.getD (j - 1) true = false) := by
  induction l with
  | nil => intro prev start k; simp [risingEdgesAux]
  | cons x xs ih =>
    intro prev start k
    have hcons : risingEdgesAux prev start (x :: xs) =
        (if x && !prev then [start] else []) ++ risingEdgesAux x (start + 1) xs := by
      rw [risingEdgesAux]; split <;> simp
    rw [hcons]
    simp only [List.mem_append, ih x (start + 1) k]
    constructor
    · rintro (hfirst | ⟨j, hj, rfl, hget, hprev⟩)
      · have hx : x = true ∧ prev = false ∧ k = start := by
          by_cases h : (x && !prev) = true
          · simp only [if_pos h, List.mem_singleton] at hfirst
            refine ⟨?_, ?_, hfirst⟩
            · revert h; cases x <;> simp
            · revert h; cases prev <;> cases x <;> simp
          · simp [h] at hfirst
        exact ⟨0, by simp, by omega, by simpa using hx.1, by simpa using hx.2.1⟩
      · refine ⟨j + 1, by simpa using hj, by omega, by simpa using hget, ?_⟩
        rw [if_neg (Nat.succ_ne_zero j)]
        cases j with
        | zero => simpa using hprev
        | succ j' => simpa using hprev
    · rintro ⟨j, hj, rfl, hget, hprev⟩
      cases j with
      | zero =>
        left
        have hx : x = true := by simpa using hget
        have hp : prev = false := by simpa using hprev
        simp [hx, hp]
      | succ j' =>
        right
        refine ⟨j', by simpa using hj, by omega, by simpa using hget, ?_⟩
        cases j' with
        | zero => simpa using hprev
        | succ j'' => simpa using hprev

/-- Claim C4. `rising_edges` yields index `k` exactly when flag `k` is true
and the previous flag is false, the initial previous state being false (so
a sequence starting true yields an edge at index 0); and the pipeline
converts each yielded window index to a sample-domain Cut Point as
`int((k * step_duration) * sample_rate)`. -/
theorem rising_edges_spec :
    (∀ (l : List Bool) (k : ℕ),
      k ∈ rising_edges l ↔
        k < l.length ∧ l.getD k false = true ∧
          (k = 0 ∨ l.getD (k - 1) true = false)) ∧
    (∀ (sample_rate : ℕ) (max_amplitude : ℚ) (samples : List ℚ),
      detectedCuts sample_rate max_amplitude samples =
        (rising_edges (windowSilenceOf sample_rate max_amplitude samples)).map
          (fun (k : ℕ) => pyInt (((k : ℚ) * step_duration_fixed) * (sample_rate : ℚ)))) := by
  refine ⟨fun l k => ?_, fun _ _ _ => rfl⟩
  rw [rising_edges, mem_risingEdgesAux]
  constructor
  · rintro ⟨j, hj, rfl, hget, hprev⟩
    simp only [Nat.zero_add]
    refine ⟨hj, hget, ?_⟩
    by_cases h0 : j = 0
    · exact Or.inl h0
    · exact Or.inr (by rw [if_neg h0] at hprev; exact hprev)
  · rintro ⟨hk, hget, hprev⟩
    refine ⟨k, hk, (Nat.zero_add k).symm, hget, ?_⟩
    by_cases h0 : k = 0
    · rw [if_pos h0]
    · rw [if_neg h0]
      rcases hprev with h | h
      · exact absurd h h0
      · exact h

lemma takeWhile_length_le (p : α → Bool) : ∀ l : List α,
    (l.takeWhile p).length ≤ l.length
  | [] => le_refl _
  | a :: t => by
    by_cases h : p a = true
    · rw [List.takeWhile_cons_of_pos h]
      simpa using takeWhile_length_le p t
    · rw [List.takeWhile_cons_of_neg (by simpa using h)]
      simp

/-- Inside the taken prefix, `takeWhile` preserves elements and its
predicate holds on them. -/
lemma takeWhile_getD (p : α → Bool) (d : α) :
    ∀ (l : List α) (i : ℕ), i < (l.takeWhile p).length →
      (l.takeWhile p).getD i d = l.getD i d ∧ p (l.getD i d) = true := by
  intro l
  induction l with
  | nil => intro i h; simp [List.takeWhile] at h
  | cons a t ih =>
    intro i h
    by_cases hpa : p a = true
    · rw [List.takeWhile_cons_of_pos hpa] at h ⊢
      cases i with
      | zero => simpa [List.getD_cons_zero]
      | succ i' =>
        simp only [List.getD_cons_succ]
        exact ih i' (by simpa using h)
    · rw [List.takeWhile_cons_of_neg (by simpa using hpa)] at h
      simp at h

lemma getD_map_of_lt (f : α → β) (l : List α) (i : ℕ) (d : α) (e : β)
    (h : i < l.length) : (l.map f).getD i e = f (l.getD i d) := by
  rw [List.getD_eq_getElem?_getD, List.getElem?_map, List.getElem?_eq_getElem h,
    Option.map_some', Option.getD_some, List.getD_eq_getElem l d h]

lemma pyRangeStarts_getD (n step i : ℕ) (h : i < (pyRangeStarts n step).length) :
    (pyRangeStarts n step).getD i 0 = i * step := by
  rw [pyRangeStarts] at h ⊢
  simp only [List.length_map, List.length_range] at h
  rw [List.getD_eq_getElem?_getD, List.getElem?_map, List.getElem?_range h]
  rfl

/-- A Python slice with natural bounds `a ≤ b ≤ len` is the `b - a`
elements from position `a`. -/
lemma pySlice_natCast (l : List α) (a b : ℕ) (hab : a ≤ b) (hbn : b ≤ l.length) :
    pySlice l (a : ℤ) (b : ℤ) = (l.drop a).take (b - a) := by
  simp only [pySlice]
  rw [if_neg (by omega : ¬((a : ℤ) < 0)), if_neg (by omega : ¬((b : ℤ) < 0)),
    (by omega : min (a : ℤ) (l.length : ℤ) = (a : ℤ)),
    (by omega : min (b : ℤ) (l.length : ℤ) = (b : ℤ)),
    Int.toNat_natCast, Int.toNat_natCast]
  rw [List.take_drop, Nat.add_sub_cancel' hab]

/-- Claim C5. For positive integer sizes the `windows` generator's `i`-th
yielded window is the `window_size`-sample slice starting at
`i * step_size`, and a window is yielded only when its end index is
strictly below the signal length — the final partial (or even exactly
flush) window is dropped, not padded. -/
theorem windows_monotonic (signal : List ℚ) (ws ss : ℕ) (hws : 0 < ws)
    (hss : 0 < ss) :
    windows signal (.int (ws : ℤ)) (.int (ss : ℤ)) =
      .ok (windowsList signal (ws : ℤ) ss) ∧
    ∀ i, i < (windowsList signal (ws : ℤ) ss).length →
      (windowsList signal (ws : ℤ) ss).getD i [] =
        (signal.drop (i * ss)).take ws ∧
      i * ss + ws < signal.length ∧
      ((windowsList signal (ws : ℤ) ss).getD i []).length = ws := by
  constructor
  · rw [windows_ok_of_pos signal (ws : ℤ) (by exact_mod_cast hss),
      Int.toNat_natCast]
  · intro i hi
    rw [windowsList] at hi ⊢
    set p : ℕ → Bool :=
      fun i_start => decide ((i_start : ℤ) + (ws : ℤ) < (signal.length : ℤ))
        with hp
    set starts := pyRangeStarts signal.length ss with hstarts
    rw [List.length_map] at hi
    obtain ⟨htk_eq, htk_p⟩ := takeWhile_getD p 0 starts i hi
    have hstart : starts.getD i 0 = i * ss :=
      pyRangeStarts_getD _ _ _ (lt_of_lt_of_le hi (takeWhile_length_le _ _))
    have hend : i * ss + ws < signal.length := by
      rw [hstart] at htk_p
      have := of_decide_eq_true htk_p
      exact_mod_cast this
    have hcast : ((i * ss : ℕ) : ℤ) + (ws : ℤ) = (((i * ss + ws : ℕ)) : ℤ) := by
      push_cast; ring
    rw [getD_map_of_lt _ _ _ 0 _ hi, htk_eq, hstart, hcast,
      pySlice_natCast signal _ _ (by omega) (by omega),
      Nat.add_sub_cancel_left]
    refine ⟨rfl, hend, ?_⟩
    simp only [List.length_take, List.length_drop]
    omega

/-- Witness for C5: a five-sample signal with window and step size 2 yields
windows `[1,2]` and `[3,4]`, satisfying all three per-window properties. -/
theorem windows_monotonic_witness :
    0 < 2 ∧
    (windows [1, 2, 3, 4, 5] (.int (2 : ℕ)) (.int (2 : ℕ)) =
        .ok (windowsList [1, 2, 3, 4, 5] (2 : ℕ) 2) ∧
      ∀ i, i < (windowsList [1, 2, 3, 4, 5] ((2 : ℕ) : ℤ) 2).length →
        (windowsList [1, 2, 3, 4, 5] ((2 : ℕ) : ℤ) 2).getD i [] =
          (([1, 2, 3, 4, 5] : List ℚ).drop (i * 2)).take 2 ∧
        i * 2 + 2 < ([1, 2, 3, 4, 5] : List ℚ).length ∧
        ((windowsList [1, 2, 3, 4, 5] ((2 : ℕ) : ℤ) 2).getD i []).length = 2) :=
  ⟨by norm_num, windows_monotonic [1, 2, 3, 4, 5] 2 2 (by norm_num) (by norm_num)⟩

lemma risingEdgesAux_all_false :
    ∀ (l : List Bool) (prev : Bool) (i : ℕ),
      (∀ x ∈ l, x = false) → risingEdgesAux prev i l = []
  | [], _, _, _ => rfl
  | x :: xs, prev, i, h => by
    have hx : x = false := h x (List.mem_cons_self x xs)
    subst hx
    rw [risingEdgesAux]
    simp only [Bool.false_and, Bool.false_eq_true, if_false]
    exact risingEdgesAux_all_false xs false (i + 1)
      (fun y hy => h y (List.mem_cons_of_mem _ hy))

/-- With a positive derived step size, a `split_audio` run returns `.ok` of
exactly the staged pipeline outputs. -/
lemma split_audio_eq_stages (msl st sd : ℚ) (sr : ℕ) (maxAmp : ℚ)
    (nm : String) (samples : List ℚ) (hstep : 0 < stepSizeOf sr) :
    split_audio msl st sd sr maxAmp nm samples = .ok
      { cutSamples := cutSamplesOf sr maxAmp samples
        cutRanges := cutRangesOf sr maxAmp samples
        writtenFiles := writtenFilesOf nm sr maxAmp samples
        manifest := manifestOf sr maxAmp samples } := by
  have hs : pyInt (step_duration_fixed * (sr : ℚ)) = stepSizeOf sr := rfl
  simp only [split_audio]
  rw [hs, windows_ok_of_pos _ _ hstep]
  rfl

/-- An entirely silent input used as concrete witness material: 601 zero
samples at 1000 Hz (one 600-sample window, energy 0). -/
def exSilent : List ℚ := List.replicate 601 0

/-- Claim C7. For an entirely silent Sample Buffer — every window's
normalized energy at or below the silence threshold — the run yields zero
Cut Points, the cut list becomes `[-1]`, zero segments are emitted, the
manifest is empty and no exception is raised (given the positive step size
every non-degenerate sample rate produces). -/
theorem silent_buffer_run (msl st sd : ℚ) (sr : ℕ) (maxAmp : ℚ)
    (nm : String) (samples : List ℚ) (hstep : 0 < stepSizeOf sr)
    (hsilent : ∀ w ∈ windowsOf sr samples,
      energy w / maxEnergyOf maxAmp ≤ silence_threshold_fixed) :
    detectedCuts sr maxAmp samples = [] ∧
    cutSamplesOf sr maxAmp samples = [-1] ∧
    split_audio msl st sd sr maxAmp nm samples =
      .ok { cutSamples := [-1], cutRanges := [], writtenFiles := [],
            manifest := [] } := by
  have hflags : ∀ b ∈ windowSilenceOf sr maxAmp samples, b = false := by
    intro b hb
    rw [windowSilenceOf] at hb
    obtain ⟨w, hw, rfl⟩ := List.mem_map.mp hb
    simpa [decide_eq_false_iff_not] using not_lt.mpr (hsilent w hw)
  have hcuts : detectedCuts sr maxAmp samples = [] := by
    rw [detectedCuts, rising_edges,
      risingEdgesAux_all_false _ _ _ hflags, List.map_nil]
  have hcs : cutSamplesOf sr maxAmp samples = [-1] := by
    rw [cutSamplesOf, hcuts]
    rfl
  refine ⟨hcuts, hcs, ?_⟩
  rw [split_audio_eq_stages msl st sd sr maxAmp nm samples hstep]
  simp [cutRangesOf, writtenFilesOf, manifestOf, hcs, makeCutRanges]

/-- Witness for C7: the all-zero 601-sample buffer at 1000 Hz. -/
theorem silent_buffer_run_witness :
    (0 < stepSizeOf 1000 ∧
      ∀ w ∈ windowsOf 1000 exSilent,
        energy w / maxEnergyOf 32767 ≤ silence_threshold_fixed) ∧
    (detectedCuts 1000 32767 exSilent = [] ∧
      cutSamplesOf 1000 32767 exSilent = [-1] ∧
      split_audio 1 2 3 1000 32767 "out" exSilent =
        .ok { cutSamples := [-1], cutRanges := [], writtenFiles := [],
              manifest := [] }) :=
  ⟨⟨by decide!, by decide!⟩,
    silent_buffer_run 1 2 3 1000 32767 "out" exSilent (by decide!) (by decide!)⟩

/-- The slice data extracted from `cut_ranges` pairs consecutive elements
of the cut list. -/
lemma makeCutRanges_slices (samples : List ℚ) :
    ∀ l : List ℤ,
      (makeCutRanges l).map (fun t => pySlice samples t.2.1 t.2.2) =
        (l.zip l.tail).map (fun (p : ℤ × ℤ) => pySlice samples p.1 p.2)
  | [] => rfl
  | [_] => rfl
  | a :: b :: t => by
    have ih := makeCutRanges_slices samples (b :: t)
    rw [makeCutRanges] at ih ⊢
    simp only [List.length_cons] at ih ⊢
    rw [(by omega : t.length + 1 + 1 - 1 = t.length + 1),
      List.range_succ_eq_map, List.map_cons, List.map_cons, List.map_map,
      List.map_map]
    rw [(by omega : t.length + 1 - 1 = t.length), List.map_map,
      List.tail_cons] at ih
    rw [List.tail_cons, List.zip_cons_cons, List.map_cons]
    refine congrArg₂ _ (by simp [Function.comp]) ?_
    rw [← ih]
    exact List.map_congr_left
      (fun i _ => by simp [Function.comp, List.getD_cons_succ])

/-- Python `l[c:-1]` for `0 ≤ c ≤ len - 1`. -/
lemma pySlice_neg_one (l : List α) (c : ℤ) (hc : 0 ≤ c)
    (hcn : c ≤ (l.length : ℤ) - 1) :
    pySlice l c (-1) = (l.drop c.toNat).take (l.length - 1 - c.toNat) := by
  simp only [pySlice]
  rw [if_neg (by omega : ¬(c < 0)), if_pos (by omega : (-1 : ℤ) < 0),
    (by omega : (max 0 ((l.length : ℤ) + (-1))).toNat = l.length - 1),
    (by omega : (min c (l.length : ℤ)).toNat = c.toNat),
    List.take_drop, (by omega : c.toNat + (l.length - 1 - c.toNat) = l.length - 1)]

/-- Two consecutive slices `l[a:b] + l[b:-1]` cover `l[a:-1]`. -/
lemma pySlice_chain (l : List α) (a b : ℤ) (ha : 0 ≤ a) (hab : a ≤ b)
    (hb : b ≤ (l.length : ℤ) - 1) :
    pySlice l a b ++ pySlice l b (-1) = pySlice l a (-1) := by
  have h1 : pySlice l a b = (l.drop a.toNat).take (b.toNat - a.toNat) := by
    have h := pySlice_natCast l a.toNat b.toNat (by omega) (by omega)
    rwa [Int.toNat_of_nonneg ha, Int.toNat_of_nonneg (by omega : (0:ℤ) ≤ b)] at h
  rw [h1, pySlice_neg_one l b (by omega) hb, pySlice_neg_one l a ha (by omega),
    (by rw [List.drop_drop]; congr 1; omega :
      l.drop b.toNat = (l.drop a.toNat).drop (b.toNat - a.toNat)),
    ← List.take_add, (by omega :
      b.toNat - a.toNat + (l.length - 1 - b.toNat) = l.length - 1 - a.toNat)]

/-- Concatenating the consecutive-pair slices of a sorted cut list with the
trailing sentinel pair reproduces the slice from the first cut to the last
sample excluded. -/
lemma concat_slices (samples : List ℚ) :
    ∀ (rest : List ℤ) (c : ℤ), 0 ≤ c →
      List.Chain' (· ≤ ·) (c :: rest) →
      (∀ x ∈ c :: rest, x ≤ (samples.length : ℤ) - 1) →
      ((((c :: rest) ++ [-1]).zip (((c :: rest) ++ [-1]).tail)).map
          (fun (p : ℤ × ℤ) => pySlice samples p.1 p.2)).flatten =
        pySlice samples c (-1)
  | [], c, hc, _, hmem => by
    simp only [List.cons_append, List.nil_append, List.tail_cons,
      List.zip_cons_cons, List.zip_nil_right, List.map_cons, List.map_nil,
      List.flatten_cons, List.flatten_nil, List.append_nil]
  | c' :: rest', c, hc, hchain, hmem => by
    have hcc' : c ≤ c' := List.chain'_cons.mp hchain |>.1
    have ih := concat_slices samples rest' c' (le_trans hc hcc')
      (List.chain'_cons.mp hchain).2
      (fun x hx => hmem x (List.mem_cons_of_mem c hx))
    simp only [List.cons_append, List.tail_cons, List.zip_cons_cons,
      List.map_cons, List.flatten_cons] at ih ⊢
    rw [ih, pySlice_chain samples c c' hc hcc'
      (hmem c' (List.mem_cons_of_mem c (List.mem_cons_self c' rest')))]

/-- The indices yielded by the `rising_edges` loop are strictly increasing
and bounded below by the running index. -/
lemma risingEdgesAux_chain :
    ∀ (l : List Bool) (prev : Bool) (i : ℕ),
      List.Chain' (· < ·) (risingEdgesAux prev i l) ∧
        ∀ k ∈ risingEdgesAux prev i l, i ≤ k
  | [], _, _ => ⟨List.chain'_nil, by simp [risingEdgesAux]⟩
  | x :: xs, prev, i => by
    obtain ⟨ihc, ihb⟩ := risingEdgesAux_chain xs x (i + 1)
    rw [risingEdgesAux]
    by_cases h : (x && !prev) = true
    · rw [if_pos h]
      constructor
      · rcases hrest : risingEdgesAux x (i + 1) xs with _ | ⟨k0, ktail⟩
        · simp
        · rw [List.chain'_cons]
          refine ⟨?_, hrest ▸ ihc⟩
          have : i + 1 ≤ k0 := ihb k0 (hrest ▸ List.mem_cons_self k0 ktail)
          omega
      · intro k hk
        rcases List.mem_cons.mp hk with rfl | hk'
        · exact le_refl k
        · exact le_of_lt (Nat.lt_of_succ_le (ihb k hk'))
    · rw [if_neg h]
      exact ⟨ihc, fun k hk => le_of_lt (Nat.lt_of_succ_le (ihb k hk))⟩

lemma step_rate_ge_one (sr : ℕ) (hstep : 0 < stepSizeOf sr) :
    (1 : ℚ) ≤ step_duration_fixed * (sr : ℚ) := by
  have h0 : (0 : ℚ) ≤ step_duration_fixed * (sr : ℚ) := by
    rw [step_duration_fixed]; positivity
  rw [stepSizeOf, pyInt_eq_floor h0] at hstep
  exact_mod_cast Int.le_floor.mp hstep

/-- With a positive derived step size, the detected Cut Points of a run are
strictly increasing. -/
lemma detectedCuts_chain (sr : ℕ) (maxAmp : ℚ) (samples : List ℚ)
    (hstep : 0 < stepSizeOf sr) :
    List.Chain' (· < ·) (detectedCuts sr maxAmp samples) := by
  have hx := step_rate_ge_one sr hstep
  rw [detectedCuts, List.chain'_map]
  refine List.Chain'.imp ?_ (risingEdgesAux_chain _ _ _).1
  intro a b hab
  have hq : (0 : ℚ) ≤ step_duration_fixed * (sr : ℚ) := le_trans zero_le_one hx
  have ha0 : (0 : ℚ) ≤ ((a : ℚ) * step_duration_fixed) * (sr : ℚ) := by
    rw [mul_assoc]; positivity
  have hb0 : (0 : ℚ) ≤ ((b : ℚ) * step_duration_fixed) * (sr : ℚ) := by
    rw [mul_assoc]; positivity
  rw [pyInt_eq_floor ha0, pyInt_eq_floor hb0]
  have key : ((a : ℚ) * step_duration_fixed) * (sr : ℚ) + 1 ≤
      ((b : ℚ) * step_duration_fixed) * (sr : ℚ) := by
    have hab' : (a : ℚ) + 1 ≤ (b : ℚ) := by exact_mod_cast hab
    calc ((a : ℚ) * step_duration_fixed) * (sr : ℚ) + 1
        = (a : ℚ) * (step_duration_fixed * (sr : ℚ)) + 1 := by ring
      _ ≤ (a : ℚ) * (step_duration_fixed * (sr : ℚ)) +
            (step_duration_fixed * (sr : ℚ)) := by linarith
      _ = ((a : ℚ) + 1) * (step_duration_fixed * (sr : ℚ)) := by ring
      _ ≤ (b : ℚ) * (step_duration_fixed * (sr : ℚ)) :=
            mul_le_mul_of_nonneg_right hab' hq
      _ = ((b : ℚ) * step_duration_fixed) * (sr : ℚ) := by ring
  have h1 : ⌊((a : ℚ) * step_duration_fixed) * (sr : ℚ)⌋ + 1 ≤
      ⌊((b : ℚ) * step_duration_fixed) * (sr : ℚ)⌋ := by
    rw [← Int.floor_add_one]
    exact Int.floor_le_floor key
  omega

lemma detectedCuts_nonneg (sr : ℕ) (maxAmp : ℚ) (samples : List ℚ) :
    ∀ c ∈ detectedCuts sr maxAmp samples, 0 ≤ c := by
  intro c hc
  rw [detectedCuts] at hc
  obtain ⟨r, _, rfl⟩ := List.mem_map.mp hc
  refine pyInt_nonneg ?_
  rw [mul_assoc, step_duration_fixed]
  positivity

/-- Claim C1, counterexample. On the 201-sample buffer `exFirstLoud` the
run detects the single Cut Point `0`, yet the concatenation of the written
sample ranges is not the original buffer: the single segment `(0, 0, -1)`
is written as `samples[0:-1]`, dropping the final sample. -/
theorem split_coverage_counterexample :
    writtenConcat 334 32767 exFirstLoud ≠ exFirstLoud := by decide!

/-- Claim C1, amended. For every run with a positive derived step size whose
detected Cut Points all lie at most at index `N - 1`: the Cut Points — the
segment start indices — are strictly increasing (so the segment ranges are
pairwise disjoint and sorted by start), and the concatenation of the
written sample ranges in index order equals `samples[c0:-1]`, the buffer
from the **first Cut Point** up to the **final sample excluded** (empty
when no Cut Point is detected): leading samples before the first Cut Point
and the last sample are never written. -/
theorem split_coverage (sr : ℕ) (maxAmp : ℚ) (samples : List ℚ)
    (hstep : 0 < stepSizeOf sr)
    (hin : ∀ c ∈ detectedCuts sr maxAmp samples,
      c ≤ (samples.length : ℤ) - 1) :
    List.Chain' (· < ·) (detectedCuts sr maxAmp samples) ∧
    (detectedCuts sr maxAmp samples = [] →
      writtenConcat sr maxAmp samples = []) ∧
    (∀ c rest, detectedCuts sr maxAmp samples = c :: rest →
      writtenConcat sr maxAmp samples = pySlice samples c (-1)) := by
  have hchain := detectedCuts_chain sr maxAmp samples hstep
  refine ⟨hchain, ?_, ?_⟩
  · intro h0
    rw [writtenConcat, cutRangesOf, cutSamplesOf, h0]
    rfl
  · intro c rest hcr
    rw [writtenConcat, cutRangesOf, cutSamplesOf, hcr,
      makeCutRanges_slices samples ((c :: rest) ++ [-1])]
    have hc0 : 0 ≤ c :=
      detectedCuts_nonneg sr maxAmp samples c
        (hcr ▸ List.mem_cons_self c rest)
    have hle : List.Chain' (· ≤ ·) (c :: rest) := by
      have hch := hchain
      rw [hcr] at hch
      exact hch.imp (fun a b h => le_of_lt h)
    have hmem : ∀ x ∈ c :: rest, x ≤ (samples.length : ℤ) - 1 := by
      intro x hx
      exact hin x (hcr ▸ hx)
    exact concat_slices samples rest c hc0 hle hmem

/-- Witness for C1 (amended): the `exFirstLoud` run (one Cut Point at 0)
satisfies both hypotheses, and its written concatenation is
`exFirstLoud[0:-1]`. -/
theorem split_coverage_witness :
    (0 < stepSizeOf 334 ∧
      ∀ c ∈ detectedCuts 334 32767 exFirstLoud,
        c ≤ (exFirstLoud.length : ℤ) - 1) ∧
    (List.Chain' (· < ·) (detectedCuts 334 32767 exFirstLoud) ∧
     (detectedCuts 334 32767 exFirstLoud = [] →
       writtenConcat 334 32767 exFirstLoud = []) ∧
     (∀ c rest, detectedCuts 334 32767 exFirstLoud = c :: rest →
       writtenConcat 334 32767 exFirstLoud = pySlice exFirstLoud c (-1))) :=
  ⟨⟨by decide!, by decide!⟩,
    split_coverage 334 32767 exFirstLoud (by decide!) (by decide!)⟩

end AudioSeg
